import Mathlib

/-!
Verification of the metric-assembly core of the prometheus receiver
(metric families, group accumulators, distribution-point assembly).

The repository snapshot ships only the Go unit tests of this core
(`TestIsCumulativeEquivalence`, `TestMetricGroupData_toDistributionUnitTest`,
`TestMetricGroupData_toDistributionPointEquivalence`); the implementation of
`metricFamily` / `metricFamilyPdata` itself is not part of the snapshot, so
every definition below carrying a `Modelled from the spec:` doc comment is a
shallow embedding of the behaviour the specification ascribes to the missing
implementation, with Go `float64` sample values embedded as exact rationals
and Go millisecond timestamps embedded as unbounded integers.
-/

attribute [local semireducible] Rat.ofScientific Rat.add Rat.sub Rat.mul Rat.inv

namespace PromCore

/-- A single Prometheus label: a name/value pair of strings. -/
structure Label where
  name : String
  value : String
deriving DecidableEq

/-- A label set, in arrival order. -/
abbrev Labels := List Label

/-- The declared type of a metric family (`textparse.MetricType*`). -/
inductive MetricType where
  | counter
  | gauge
  | histogram
  | gaugeHistogram
  | summary
  | unknown
deriving DecidableEq

/-- Per-family metadata returned by the scrape metadata cache. -/
structure MetricMetadata where
  metric : String
  type : MetricType
  help : String
  unit : String
deriving DecidableEq

/-- A lookup-by-name metadata source (`scrape.MetricMetadata` cache). -/
abbrev MetadataCache := String → Option MetricMetadata

/-- Byte-wise lexicographic `≤` on strings as character lists (the order used
to canonically sort label keys). -/
def strLeB : List Char → List Char → Bool
  | [], _ => true
  | _ :: _, [] => false
  | a :: as, b :: bs =>
    if a < b then true
    else if b < a then false
    else strLeB as bs

/-- Key order on labels: compare only the label names. -/
def labelLe (a b : Label) : Prop := strLeB a.name.data b.name.data = true

instance : DecidableRel labelLe := fun a b =>
  inferInstanceAs (Decidable (strLeB a.name.data b.name.data = true))

theorem strLeB_total (a b : List Char) : strLeB a b = true ∨ strLeB b a = true := by
  induction a generalizing b with
  | nil => left; rfl
  | cons x xs ih =>
    cases b with
    | nil => right; rfl
    | cons y ys =>
      rcases lt_trichotomy x y with hxy | hxy | hxy
      · left; simp [strLeB, hxy]
      · subst hxy
        rcases ih ys with h | h
        · left; simp [strLeB, h]
        · right; simp [strLeB, h]
      · right; simp [strLeB, hxy]

theorem strLeB_trans {a b c : List Char} (h₁ : strLeB a b = true)
    (h₂ : strLeB b c = true) : strLeB a c = true := by
  induction a generalizing b c with
  | nil => rfl
  | cons x xs ih =>
    cases b with
    | nil => simp [strLeB] at h₁
    | cons y ys =>
      cases c with
      | nil => simp [strLeB] at h₂
      | cons z zs =>
        rcases lt_trichotomy x y with hxy | hxy | hxy
        · rcases lt_trichotomy y z with hyz | hyz | hyz
          · simp [strLeB, lt_trans hxy hyz]
          · subst hyz; simp [strLeB, hxy]
          · simp [strLeB, asymm hyz, hyz] at h₂
        · subst hxy
          rcases lt_trichotomy x z with hxz | hxz | hxz
          · simp [strLeB, hxz]
          · subst hxz
            have h₁' : strLeB xs ys = true := by
              simpa [strLeB, lt_irrefl] using h₁
            have h₂' : strLeB ys zs = true := by
              simpa [strLeB, lt_irrefl] using h₂
            simp [strLeB, lt_irrefl, ih h₁' h₂']
          · simp [strLeB, asymm hxz, hxz] at h₂
        · simp [strLeB, asymm hxy, hxy] at h₁

theorem strLeB_antisymm {a b : List Char} (h₁ : strLeB a b = true)
    (h₂ : strLeB b a = true) : a = b := by
  induction a generalizing b with
  | nil =>
    cases b with
    | nil => rfl
    | cons y ys => simp [strLeB] at h₂
  | cons x xs ih =>
    cases b with
    | nil => simp [strLeB] at h₁
    | cons y ys =>
      rcases lt_trichotomy x y with hxy | hxy | hxy
      · simp [strLeB, asymm hxy, hxy] at h₂
      · subst hxy
        have h₁' : strLeB xs ys = true := by simpa [strLeB, lt_irrefl] using h₁
        have h₂' : strLeB ys xs = true := by simpa [strLeB, lt_irrefl] using h₂
        rw [ih h₁' h₂']
      · simp [strLeB, asymm hxy, hxy] at h₁

instance : IsTotal Label labelLe := ⟨fun a b => strLeB_total a.name.data b.name.data⟩

instance : IsTrans Label labelLe := ⟨fun _ _ _ h h' => strLeB_trans h h'⟩

/-- A histogram bucket upper bound: a finite rational or the `+Inf` sentinel. -/
inductive Bound where
  | finite (q : ℚ)
  | inf
deriving DecidableEq

/-- Bound order: finite bounds by value, the infinite sentinel last. -/
def Bound.le : Bound → Bound → Prop
  | .finite a, .finite b => a ≤ b
  | .finite _, .inf => True
  | .inf, .finite _ => False
  | .inf, .inf => True

instance : DecidableRel Bound.le := fun a b =>
  match a, b with
  | .finite qa, .finite qb => inferInstanceAs (Decidable (qa ≤ qb))
  | .finite _, .inf => .isTrue trivial
  | .inf, .finite _ => .isFalse id
  | .inf, .inf => .isTrue trivial

/-- Orders bucket entries by their bound. -/
def bucketLe (x y : Bound × ℚ) : Prop := Bound.le x.1 y.1

instance : DecidableRel bucketLe := fun x y =>
  inferInstanceAs (Decidable (Bound.le x.1 y.1))

instance : IsTotal (Bound × ℚ) bucketLe :=
  ⟨fun x y => by
    rcases x with ⟨ba, _⟩
    rcases y with ⟨bb, _⟩
    rcases ba with qa | _ <;> rcases bb with qb | _
    · exact le_total qa qb
    · left; trivial
    · right; trivial
    · left; trivial⟩

instance : IsTrans (Bound × ℚ) bucketLe :=
  ⟨fun x y z h h' => by
    rcases x with ⟨ba, _⟩
    rcases y with ⟨bb, _⟩
    rcases z with ⟨bc, _⟩
    rcases bc with qc | _
    · rcases bb with qb | _
      · rcases ba with qa | _
        · exact le_trans h h'
        · exact h.elim
      · exact h'.elim
    · rcases ba with qa | _ <;> trivial⟩

/-- A sampled raw observation attached to a distribution point for
trace correlation. The scrape input embedded here carries no exemplar
metadata, so accumulated exemplar lists are always empty. -/
structure Exemplar where
  value : ℚ
  timestampNanos : Int
  filteredLabels : List (String × String)
deriving DecidableEq

/-- Modelled from the spec: the Group Accumulator (§3) of one time series
within a family: first-seen label set, creation timestamps, cumulative flag,
and the per-type accumulation fields (scalar value, count/sum, bucket mapping,
quantile mapping). -/
structure MetricGroup where
  ls : Labels
  tsMillis : Int
  firstSeenMillis : Int
  cumulative : Bool
  count : Option ℚ
  sum : Option ℚ
  value : Option ℚ
  buckets : List (Bound × ℚ)
  quantiles : List (ℚ × ℚ)
deriving DecidableEq

/-- One scraped sample handed to the core by the scrape collaborator (§6). -/
structure Sample where
  name : String
  ls : Labels
  t : Int
  v : ℚ

/-- Parse a non-empty run of decimal digits. -/
def parseDigits (cs : List Char) : Option Nat :=
  if cs = [] then none
  else
    cs.foldl
      (fun acc c =>
        acc.bind fun n => if c.isDigit then some (n * 10 + (c.toNat - 48)) else none)
      (some 0)

/-- Modelled from the spec: parsing of a bucket-bound label value (§4.3):
a decimal numeral maps to its exact rational value, the literal `+Inf`
token maps to the sentinel infinite bound. -/
def parseBound (s : String) : Option Bound :=
  if s = "+Inf" then some Bound.inf
  else
    let (neg, cs) :=
      match s.data with
      | '-' :: rest => (true, rest)
      | cs => (false, cs)
    match cs.span (fun c => c != '.') with
    | (ip, []) =>
      (parseDigits ip).map fun n =>
        Bound.finite (if neg then -(n : ℚ) else (n : ℚ))
    | (ip, _ :: fp) =>
      (parseDigits ip).bind fun n =>
        (parseDigits fp).map fun f =>
          let q : ℚ := (n : ℚ) + (f : ℚ) / ((10 : ℚ) ^ fp.length)
          Bound.finite (if neg then -q else q)

/-- Truncation of a rational toward zero, the Go `float64` → integer
conversion used for bucket counts. -/
def truncQ (q : ℚ) : Int := Int.tdiv q.num (Int.ofNat q.den)

/-- Truncation toward zero into a `uint64` output field; negative values
clamp at zero and the result is reduced modulo `2 ^ 64`. -/
def toUint64 (q : ℚ) : Nat := (truncQ q).toNat % 2 ^ 64

/-- Value of the label with the given name, if present. -/
def findLabel (k : String) (ls : Labels) : Option String :=
  (ls.find? fun l => l.name == k).map Label.value

/-- Insert-or-replace into an association list, mapping semantics (§3:
`buckets` and `quantiles` are mappings keyed by bound / quantile). -/
def insertPair {κ : Type} [DecidableEq κ] (k : κ) (v : ℚ) :
    List (κ × ℚ) → List (κ × ℚ)
  | [] => [(k, v)]
  | (k₀, v₀) :: rest =>
    if k₀ = k then (k, v) :: rest else (k₀, v₀) :: insertPair k v rest

/-- Association-list lookup for the groups map. -/
def lookupKey {α : Type} (k : String) : List (String × α) → Option α
  | [] => none
  | (k₀, a) :: rest => if k₀ = k then some a else lookupKey k rest

/-- Association-list update (insert at the end on a fresh key) for the
groups map. -/
def setKey {α : Type} (k : String) (a : α) : List (String × α) → List (String × α)
  | [] => [(k, a)]
  | (k₀, a₀) :: rest =>
    if k₀ = k then (k, a) :: rest else (k₀, a₀) :: setKey k a rest

/-- True for label keys that take part in group identity and in rendered
label maps: everything except the metric-name label and the bucket/quantile
discriminator labels (§4.2). -/
def usefulKey (k : String) : Bool :=
  !(k == "__name__" || k == "le" || k == "quantile")

/-- Keeps exactly the labels whose key is useful (§4.2). -/
def relevantLabel (l : Label) : Bool := usefulKey l.name

/-- Modelled from the spec: the Label Key Registry (§4.1): record every not
yet known useful key, appending in first-seen order; no removals. -/
def observeKeys (acc : List String) (ls : Labels) : List String :=
  ls.foldl
    (fun a l => if usefulKey l.name && !(a.contains l.name) then a ++ [l.name] else a)
    acc

/-- Canonical `key=value` serialization of one label. -/
def labelKV (l : Label) : String := l.name ++ "=" ++ l.value

/-- Modelled from the spec: the Group Key Resolver (§4.2) of the legacy
(OpenCensus) `metricFamily`: drop the metric-name label and the `le` /
`quantile` discriminator labels, sort the remaining pairs by key, and join
their canonical `key=value` serializations. -/
def getGroupKey (ls : Labels) : String :=
  String.intercalate "," (((ls.filter relevantLabel).insertionSort labelLe).map labelKV)

/-- Modelled from the spec: the Group Key Resolver (§4.2) as implemented by
the pdata `metricFamilyPdata`; the spec mandates the same canonical
serialization for both representations. -/
def getGroupKeyPdata (ls : Labels) : String :=
  String.intercalate "," (((ls.filter relevantLabel).insertionSort labelLe).map labelKV)

/-- Modelled from the spec: a freshly created Group Accumulator (§4.3 step 2):
stamped with the creating sample's label set and timestamp, the latter also
recorded as `firstSeenTimestampMillis`. -/
def freshGroup (ls : Labels) (t : Int) (cumulative : Bool) : MetricGroup :=
  { ls := ls
    tsMillis := t
    firstSeenMillis := t
    cumulative := cumulative
    count := none
    sum := none
    value := none
    buckets := []
    quantiles := [] }

/-- Errors surfaced by sample ingestion (§7). -/
inductive AddError where
  | malformedLabels
  | invalidBoundary
deriving DecidableEq

/-- Modelled from the spec: sub-field dispatch of `Add` (§4.3 step 3):
`_count` suffix → count, `_sum` suffix → sum, any other histogram sample is a
bucket-style value keyed by the parsed `le` bound, any other summary sample a
quantile entry keyed by the parsed `quantile` fraction, and scalar families
store the single value directly. -/
def updateGroup (mtype : MetricType) (metricName : String) (ls : Labels)
    (v : ℚ) (g : MetricGroup) : Except AddError MetricGroup :=
  match mtype with
  | .histogram | .gaugeHistogram =>
    if List.isSuffixOf "_count".data metricName.data then
      Except.ok { g with count := some v }
    else if List.isSuffixOf "_sum".data metricName.data then
      Except.ok { g with sum := some v }
    else
      match (findLabel "le" ls).bind parseBound with
      | some b => Except.ok { g with buckets := insertPair b v g.buckets }
      | none => Except.error AddError.invalidBoundary
  | .summary =>
    if List.isSuffixOf "_count".data metricName.data then
      Except.ok { g with count := some v }
    else if List.isSuffixOf "_sum".data metricName.data then
      Except.ok { g with sum := some v }
    else
      match (findLabel "quantile" ls).bind parseBound with
      | some (Bound.finite q) =>
        Except.ok { g with quantiles := insertPair q v g.quantiles }
      | _ => Except.error AddError.invalidBoundary
  | _ => Except.ok { g with value := some v }

/-- Modelled from the spec: one `Add` call (§4.3), shared by both family
representations (the spec specifies a single ingestion algorithm for both):
reject duplicate label keys with `MalformedLabelsError`, resolve the group
key, look up or create the accumulator, dispatch the sample into its
sub-field, and record the newly observed label keys. -/
def addCore (mtype : MetricType) (cumulative : Bool) (keys : List String)
    (groups : List (String × MetricGroup)) (metricName : String) (ls : Labels)
    (t : Int) (v : ℚ) :
    Except AddError (List String × List (String × MetricGroup)) :=
  if (ls.map Label.name).Nodup then
    match updateGroup mtype metricName ls v
        ((lookupKey (getGroupKey ls) groups).getD (freshGroup ls t cumulative)) with
    | Except.error e => Except.error e
    | Except.ok g1 =>
      Except.ok (observeKeys keys ls, setKey (getGroupKey ls) g1 groups)
  else Except.error AddError.malformedLabels

/-- Modelled from the spec: the legacy (OpenCensus) Metric Family (§3, §4.3)
for one scrape cycle. -/
structure MetricFamily where
  name : String
  mtype : MetricType
  labelKeysOrdered : List String
  groups : List (String × MetricGroup)
deriving DecidableEq

/-- Modelled from the spec: the pdata Metric Family, the second internal
representation of the same data (§3, §4.3, design note on the transitional
dual implementation). -/
structure MetricFamilyPdata where
  name : String
  mtype : MetricType
  labelKeysOrdered : List String
  groups : List (String × MetricGroup)
deriving DecidableEq

/-- The family type declared by the metadata source; missing metadata yields
`Unknown` (§4.3). -/
def declaredType (cache : MetadataCache) (familyName : String) : MetricType :=
  ((cache familyName).map MetricMetadata.type).getD MetricType.unknown

/-- Modelled from the spec: `newMetricFamily` classifies the family from the
metadata lookup and starts with no observed keys and no groups. -/
def newMetricFamily (familyName : String) (cache : MetadataCache) : MetricFamily :=
  { name := familyName
    mtype := declaredType cache familyName
    labelKeysOrdered := []
    groups := [] }

/-- Modelled from the spec: `newMetricFamilyPdata`, same classification for
the pdata representation. -/
def newMetricFamilyPdata (familyName : String) (cache : MetadataCache) :
    MetricFamilyPdata :=
  { name := familyName
    mtype := declaredType cache familyName
    labelKeysOrdered := []
    groups := [] }

/-- Modelled from the spec: `isCumulativeType` (§4.3): true exactly for
Counter and Histogram, by an explicit table on the declared type. -/
def MetricFamily.isCumulativeType (mf : MetricFamily) : Bool :=
  match mf.mtype with
  | MetricType.counter => true
  | MetricType.histogram => true
  | MetricType.gauge => false
  | MetricType.gaugeHistogram => false
  | MetricType.summary => false
  | MetricType.unknown => false

/-- Modelled from the spec: `isCumulativeTypePdata`, the pdata encoding of
the same table (§4.3 requires the table to be enforced identically regardless
of internal representation). -/
def MetricFamilyPdata.isCumulativeTypePdata (mp : MetricFamilyPdata) : Bool :=
  mp.mtype == MetricType.counter || mp.mtype == MetricType.histogram

/-- The legacy representation's `metricFamily.Add`. -/
def MetricFamily.Add (mf : MetricFamily) (metricName : String) (ls : Labels)
    (t : Int) (v : ℚ) : Except AddError MetricFamily :=
  match addCore mf.mtype mf.isCumulativeType mf.labelKeysOrdered mf.groups
      metricName ls t v with
  | Except.error e => Except.error e
  | Except.ok (ks, gs) => Except.ok { mf with labelKeysOrdered := ks, groups := gs }

/-- The pdata representation's `metricFamilyPdata.Add`. -/
def MetricFamilyPdata.Add (mp : MetricFamilyPdata) (metricName : String)
    (ls : Labels) (t : Int) (v : ℚ) : Except AddError MetricFamilyPdata :=
  match addCore mp.mtype mp.isCumulativeTypePdata mp.labelKeysOrdered mp.groups
      metricName ls t v with
  | Except.error e => Except.error e
  | Except.ok (ks, gs) => Except.ok { mp with labelKeysOrdered := ks, groups := gs }

/-- Per-sample error propagation (§7): a failing sample is rejected and the
family is left untouched, so ingestion continues for the rest of the cycle. -/
def MetricFamily.addOrKeep (mf : MetricFamily) (s : Sample) : MetricFamily :=
  match mf.Add s.name s.ls s.t s.v with
  | Except.ok mf' => mf'
  | Except.error _ => mf

/-- Per-sample error propagation for the pdata representation (§7). -/
def MetricFamilyPdata.addOrKeep (mp : MetricFamilyPdata) (s : Sample) :
    MetricFamilyPdata :=
  match mp.Add s.name s.ls s.t s.v with
  | Except.ok mp' => mp'
  | Except.error _ => mp

/-- Ingest a scrape cycle's samples in arrival order (§6). -/
def ingestAll (samples : List Sample) (mf : MetricFamily) : MetricFamily :=
  samples.foldl MetricFamily.addOrKeep mf

/-- Ingest a scrape cycle's samples into the pdata representation (§6). -/
def ingestAllPdata (samples : List Sample) (mp : MetricFamilyPdata) :
    MetricFamilyPdata :=
  samples.foldl MetricFamilyPdata.addOrKeep mp

/-- The pdata histogram data point (§3, Distribution Point): `count` and the
bucket counts are `uint64` values, bounds and sum are `float64` values,
timestamps are nanoseconds, labels are a rendered string map. -/
structure HistogramDataPoint where
  count : Nat
  sum : ℚ
  bucketCounts : List Nat
  explicitBounds : List ℚ
  startTimestampNanos : Int
  timestampNanos : Int
  labelsMap : List (String × String)
  exemplars : List Exemplar
deriving DecidableEq

/-- One bucket of the legacy OpenCensus distribution: a count plus an
optional attached exemplar. -/
structure OCBucket where
  count : Nat
  exemplar : Option Exemplar
deriving DecidableEq

/-- The legacy OpenCensus distribution value. -/
structure OCDistribution where
  count : Nat
  sum : ℚ
  bounds : List ℚ
  buckets : List OCBucket
deriving DecidableEq

/-- One timestamped point of a legacy OpenCensus time series. -/
structure OCPoint where
  timestampNanos : Int
  distribution : OCDistribution
deriving DecidableEq

/-- A legacy OpenCensus time series: series-level start timestamp, label
values aligned with the family's ordered label keys, and its points. -/
structure OCTimeSeries where
  startTimestampNanos : Int
  labelValues : List String
  points : List OCPoint
deriving DecidableEq

/-- First bucket keeps its cumulative value; every later bucket is the
difference to the next-lower bound's cumulative value (§4.4). -/
def cumulativeDiffs : List ℚ → List ℚ
  | [] => []
  | v :: vs => v :: List.zipWith (fun prev cur => cur - prev) (v :: vs) vs

/-- A group's bucket entries sorted by bound, the infinite sentinel last
(§4.4). -/
def sortedBuckets (g : MetricGroup) : List (Bound × ℚ) :=
  g.buckets.insertionSort bucketLe

/-- The reconciled per-bucket values of a group, before integer truncation
(§4.4). -/
def bucketDiffs (g : MetricGroup) : List ℚ :=
  cumulativeDiffs ((sortedBuckets g).map Prod.snd)

/-- Numeric value of a bound; the infinite sentinel never reaches rendered
output (it can only sort last and the last bound is not emitted). -/
def Bound.toVal : Bound → ℚ
  | .finite q => q
  | .inf => 0

/-- True when at least one sample contributed to the group's distribution
fields (§4.4: an empty group is not emitted). -/
def MetricGroup.hasData (g : MetricGroup) : Bool :=
  g.count.isSome || g.sum.isSome || !g.buckets.isEmpty

/-- The output `count` falls back to the cumulative value of the highest bucket when no
`_count` sample is present (§4.4). -/
def MetricGroup.countValue (g : MetricGroup) : ℚ :=
  g.count.getD ((((sortedBuckets g).getLast?).map Prod.snd).getD 0)

/-- The start timestamp of a point: first-seen millis for cumulative
families, the point's own timestamp otherwise, converted exactly to
nanoseconds (§4.4). -/
def MetricGroup.startTimestampNanos (g : MetricGroup) : Int :=
  (if g.cumulative then g.firstSeenMillis else g.tsMillis) * 1000000

/-- Labels rendered in the Label Key Registry's stable key order (§4.1,
§4.4); a key the group never carried renders as the empty string. -/
def renderLabels (orderedKeys : List String) (ls : Labels) :
    List (String × String) :=
  orderedKeys.map fun k => (k, (findLabel k ls).getD "")

/-- Modelled from the spec: pdata distribution-point assembly (§4.4): emit
nothing for an empty group (`EmptyGroupError`) or when a reconciled bucket
count would be negative (`NonMonotonicBucketsError`); otherwise sort bounds
ascending with the infinite sentinel last, emit finite bounds for all buckets
but the last, truncate reconciled values toward zero into `uint64` counts,
and stamp exact nanosecond timestamps. -/
def MetricGroup.toDistributionPointOpt (g : MetricGroup)
    (orderedKeys : List String) : Option HistogramDataPoint :=
  if g.hasData then
    if (bucketDiffs g).any (fun d => decide (d < 0)) then none
    else
      some
        { count := toUint64 g.countValue
          sum := g.sum.getD 0
          bucketCounts := (bucketDiffs g).map toUint64
          explicitBounds := ((sortedBuckets g).dropLast).map fun b => b.1.toVal
          startTimestampNanos := g.startTimestampNanos
          timestampNanos := g.tsMillis * 1000000
          labelsMap := renderLabels orderedKeys g.ls
          exemplars := [] }
  else none

/-- The method `metricGroupPdata.toDistributionPoint`: append the assembled point to the
destination slice and report whether one was produced. -/
def MetricGroup.toDistributionPoint (g : MetricGroup) (orderedKeys : List String)
    (dest : List HistogramDataPoint) : Bool × List HistogramDataPoint :=
  match g.toDistributionPointOpt orderedKeys with
  | some p => (true, dest ++ [p])
  | none => (false, dest)

/-- Modelled from the spec: legacy OpenCensus distribution assembly
(`metricGroup.toDistributionTimeSeries`), the second encoder over the same
grouped data (§4.4): identical reconciliation, rendered as a one-point time
series with a series-level start timestamp and key-aligned label values. -/
def MetricGroup.toDistributionTimeSeries (g : MetricGroup)
    (orderedKeys : List String) : Option OCTimeSeries :=
  if g.hasData then
    if (bucketDiffs g).any (fun d => decide (d < 0)) then none
    else
      some
        { startTimestampNanos := g.startTimestampNanos
          labelValues := orderedKeys.map fun k => (findLabel k g.ls).getD ""
          points :=
            [{ timestampNanos := g.tsMillis * 1000000
               distribution :=
                 { count := toUint64 g.countValue
                   sum := g.sum.getD 0
                   bounds := ((sortedBuckets g).dropLast).map fun b => b.1.toVal
                   buckets :=
                     (bucketDiffs g).map fun d =>
                       { count := toUint64 d, exemplar := none } } }] }
  else none

/-- Sort a rendered label map by key (the comparison the equivalence test
performs after `Sort()`). -/
def sortPairs (m : List (String × String)) : List (String × String) :=
  m.insertionSort fun a b => strLeB a.1.data b.1.data = true

instance : DecidableRel fun a b : String × String =>
    strLeB a.1.data b.1.data = true := fun a b =>
  inferInstanceAs (Decidable (strLeB a.1.data b.1.data = true))

/-- The by-lookup metadata cache `mc` of the unit tests. -/
def mc : MetadataCache := fun familyName =>
  if familyName = "counter" then
    some { metric := "cr", type := MetricType.counter, help := "This is some help", unit := "By" }
  else if familyName = "gauge" then
    some { metric := "ge", type := MetricType.gauge, help := "This is some help", unit := "1" }
  else if familyName = "gaugehistogram" then
    some { metric := "gh", type := MetricType.gaugeHistogram, help := "This is some help", unit := "?" }
  else if familyName = "histogram" then
    some { metric := "hg", type := MetricType.histogram, help := "This is some help", unit := "ms" }
  else if familyName = "summary" then
    some { metric := "s", type := MetricType.summary, help := "This is some help", unit := "?" }
  else if familyName = "unknown" then
    some { metric := "u", type := MetricType.unknown, help := "This is some help", unit := "?" }
  else none

/-- The label set `{a:A, le:0.75, b:B}` of the distribution unit test. -/
def testLabels : Labels :=
  [{ name := "a", value := "A" }, { name := "le", value := "0.75" },
   { name := "b", value := "B" }]

/-- The three scrapes of the distribution unit test. -/
def testScrapes : List Sample :=
  [{ name := "histogram_count", ls := testLabels, t := 11, v := 10 },
   { name := "histogram_sum", ls := testLabels, t := 11, v := 1004.78 },
   { name := "value", ls := testLabels, t := 13, v := 33.7 }]

/-- The single group accumulator the unit-test scrapes produce. -/
def testGroup : MetricGroup :=
  { ls := testLabels
    tsMillis := 11
    firstSeenMillis := 11
    cumulative := true
    count := some 10
    sum := some 1004.78
    value := none
    buckets := [(Bound.finite (3 / 4), 33.7)]
    quantiles := [] }

/-- The histogram data point the unit test expects. -/
def expectedPoint : HistogramDataPoint :=
  { count := 10
    sum := 1004.78
    bucketCounts := [33]
    explicitBounds := []
    startTimestampNanos := 11000000
    timestampNanos := 11000000
    labelsMap := [("a", "A"), ("b", "B")]
    exemplars := [] }

/-- The fixed cumulative-classification table exactly as the spec words it:
Counter→true, Histogram→true, Gauge→false, GaugeHistogram→false,
Summary→false, Unknown→false. -/
def specCumulativeTable : MetricType → Bool
  | MetricType.counter => true
  | MetricType.histogram => true
  | MetricType.gauge => false
  | MetricType.gaugeHistogram => false
  | MetricType.summary => false
  | MetricType.unknown => false

/-- The two family representations agree on type, registry and groups. -/
def FamAgree (mf : MetricFamily) (mp : MetricFamilyPdata) : Prop :=
  mf.mtype = mp.mtype ∧ mf.labelKeysOrdered = mp.labelKeysOrdered ∧
    mf.groups = mp.groups

theorem isCumulative_agree (mf : MetricFamily) (mp : MetricFamilyPdata)
    (h : mf.mtype = mp.mtype) : mf.isCumulativeType = mp.isCumulativeTypePdata := by
  rcases mf with ⟨n₁, t₁, k₁, g₁⟩
  rcases mp with ⟨n₂, t₂, k₂, g₂⟩
  simp only [MetricFamily.mtype, MetricFamilyPdata.mtype] at h
  subst h
  cases t₁ <;> rfl

theorem addOrKeep_agree (mf : MetricFamily) (mp : MetricFamilyPdata) (s : Sample)
    (h : FamAgree mf mp) : FamAgree (mf.addOrKeep s) (mp.addOrKeep s) := by
  obtain ⟨ht, hk, hg⟩ := h
  have hc : mf.isCumulativeType = mp.isCumulativeTypePdata :=
    isCumulative_agree mf mp ht
  unfold MetricFamily.addOrKeep MetricFamilyPdata.addOrKeep MetricFamily.Add
    MetricFamilyPdata.Add
  rw [ht, hk, hg, hc]
  cases hcore : addCore mp.mtype mp.isCumulativeTypePdata mp.labelKeysOrdered
      mp.groups s.name s.ls s.t s.v with
  | error e => exact ⟨ht, hk, hg⟩
  | ok st =>
    rcases st with ⟨ks, gs⟩
    exact ⟨rfl, rfl, rfl⟩

theorem ingestAll_agree (samples : List Sample) (mf : MetricFamily)
    (mp : MetricFamilyPdata) (h : FamAgree mf mp) :
    FamAgree (ingestAll samples mf) (ingestAllPdata samples mp) := by
  induction samples generalizing mf mp with
  | nil => exact h
  | cons s ss ih => exact ih (mf.addOrKeep s) (mp.addOrKeep s) (addOrKeep_agree mf mp s h)

theorem newFamily_agree (familyName : String) (cache : MetadataCache) :
    FamAgree (newMetricFamily familyName cache) (newMetricFamilyPdata familyName cache) :=
  ⟨rfl, rfl, rfl⟩

theorem zip_self_map {α β : Type} (f : α → β) (l : List α) :
    l.zip (l.map f) = l.map fun a => (a, f a) := by
  induction l with
  | nil => rfl
  | cons x xs ih => simp [ih]

/-- The field-by-field comparison between a legacy OpenCensus distribution
time series and a pdata histogram point that the equivalence test performs:
equal point count, timestamps, count, sum, bucket counts, bounds, exemplars,
and equal rendered label maps once both are sorted by key. -/
def distEquiv (orderedKeys : List String) (ts : OCTimeSeries)
    (p : HistogramDataPoint) : Prop :=
  ts.points.length = 1 ∧
  ts.points.map OCPoint.timestampNanos = [p.timestampNanos] ∧
  ts.startTimestampNanos = p.startTimestampNanos ∧
  (ts.points.map fun pt => pt.distribution.count) = [p.count] ∧
  (ts.points.map fun pt => pt.distribution.sum) = [p.sum] ∧
  (ts.points.map fun pt => pt.distribution.buckets.map OCBucket.count) =
    [p.bucketCounts] ∧
  (ts.points.map fun pt => pt.distribution.bounds) = [p.explicitBounds] ∧
  (ts.points.map fun pt => pt.distribution.buckets.filterMap OCBucket.exemplar) =
    [p.exemplars] ∧
  sortPairs (orderedKeys.zip ts.labelValues) = sortPairs p.labelsMap

/-- Both finalizers emit together or not at all, and when they emit the
points are field-equivalent. -/
def optionDistEquiv (orderedKeys : List String) :
    Option OCTimeSeries → Option HistogramDataPoint → Prop
  | some ts, some p => distEquiv orderedKeys ts p
  | none, none => True
  | some _, none => False
  | none, some _ => False

theorem assemble_equiv (g : MetricGroup) (orderedKeys : List String) :
    optionDistEquiv orderedKeys (g.toDistributionTimeSeries orderedKeys)
      (g.toDistributionPointOpt orderedKeys) := by
  unfold MetricGroup.toDistributionTimeSeries MetricGroup.toDistributionPointOpt
  by_cases h1 : g.hasData
  · by_cases h2 : (bucketDiffs g).any (fun d => decide (d < 0)) = true
    · simp [h1, h2, optionDistEquiv]
    · have hex : ∀ l : List ℚ,
          List.filterMap OCBucket.exemplar
            (l.map fun d => ({ count := toUint64 d, exemplar := none } : OCBucket)) = [] := by
        intro l
        induction l with
        | nil => rfl
        | cons a as ih => simp [List.filterMap_cons, ih]
      have hcnt : ∀ l : List ℚ,
          List.map OCBucket.count
            (l.map fun d => ({ count := toUint64 d, exemplar := none } : OCBucket)) =
            l.map toUint64 := by
        intro l
        simp [List.map_map, Function.comp]
      rw [if_pos h1, if_pos h1, if_neg h2, if_neg h2]
      refine ⟨rfl, rfl, rfl, rfl, rfl, ?_, rfl, ?_, ?_⟩
      · exact congrArg (fun x => [x]) (hcnt (bucketDiffs g))
      · exact congrArg (fun x => [x]) (hex (bucketDiffs g))
      · rw [show OCTimeSeries.labelValues
              { startTimestampNanos := g.startTimestampNanos,
                labelValues := orderedKeys.map fun k => (findLabel k g.ls).getD "",
                points := _ } = orderedKeys.map fun k => (findLabel k g.ls).getD "" from rfl,
            zip_self_map]
        rfl
  · simp [h1, optionDistEquiv]

theorem insertPair_cons_eq {κ : Type} [DecidableEq κ] {k k₀ : κ} (v v₀ : ℚ)
    (rest : List (κ × ℚ)) (hk : k₀ = k) :
    insertPair k v ((k₀, v₀) :: rest) = (k, v) :: rest := by
  simp [insertPair, hk]

theorem insertPair_cons_ne {κ : Type} [DecidableEq κ] {k k₀ : κ} (v v₀ : ℚ)
    (rest : List (κ × ℚ)) (hk : ¬ k₀ = k) :
    insertPair k v ((k₀, v₀) :: rest) = (k₀, v₀) :: insertPair k v rest := by
  simp [insertPair, hk]

theorem mem_keys_insertPair {κ : Type} [DecidableEq κ] {k k' : κ} {v : ℚ}
    {l : List (κ × ℚ)} (h : k' ∈ (insertPair k v l).map Prod.fst) :
    k' = k ∨ k' ∈ l.map Prod.fst := by
  induction l with
  | nil =>
    left
    simpa [insertPair] using h
  | cons p rest ih =>
    rcases p with ⟨k₀, v₀⟩
    by_cases hk : k₀ = k
    · rw [insertPair_cons_eq v v₀ rest hk] at h
      simp only [List.map_cons, List.mem_cons] at h
      rcases h with h | h
      · exact Or.inl h
      · exact Or.inr (List.mem_cons_of_mem _ h)
    · rw [insertPair_cons_ne v v₀ rest hk] at h
      simp only [List.map_cons, List.mem_cons] at h
      rcases h with h | h
      · exact Or.inr (by simp [h])
      · rcases ih h with h' | h'
        · exact Or.inl h'
        · exact Or.inr (List.mem_cons_of_mem _ h')

theorem insertPair_keys_nodup {κ : Type} [DecidableEq κ] {k : κ} {v : ℚ}
    {l : List (κ × ℚ)} (h : (l.map Prod.fst).Nodup) :
    ((insertPair k v l).map Prod.fst).Nodup := by
  induction l with
  | nil => simp [insertPair]
  | cons p rest ih =>
    rcases p with ⟨k₀, v₀⟩
    simp only [List.map_cons, List.nodup_cons] at h
    obtain ⟨hnotin, hrest⟩ := h
    by_cases hk : k₀ = k
    · rw [insertPair_cons_eq v v₀ rest hk]
      simp only [List.map_cons, List.nodup_cons]
      exact ⟨hk ▸ hnotin, hrest⟩
    · rw [insertPair_cons_ne v v₀ rest hk]
      simp only [List.map_cons, List.nodup_cons]
      refine ⟨fun hmem => ?_, ih hrest⟩
      rcases mem_keys_insertPair hmem with h' | h'
      · exact hk h'
      · exact hnotin h'

/-- The mapping invariant of a Group Accumulator: bucket bounds are
pairwise distinct keys (§3: `buckets` is a mapping). -/
def BucketKeysNodup (g : MetricGroup) : Prop :=
  (g.buckets.map Prod.fst).Nodup

theorem updateGroup_bucketNodup {mtype : MetricType} {metricName : String}
    {ls : Labels} {v : ℚ} {g g' : MetricGroup} (hg : BucketKeysNodup g)
    (h : updateGroup mtype metricName ls v g = Except.ok g') :
    BucketKeysNodup g' := by
  unfold updateGroup at h
  cases mtype <;> simp only at h
  case counter | gauge | unknown =>
    cases h
    exact hg
  case histogram | gaugeHistogram =>
    split at h
    · cases h; exact hg
    · split at h
      · cases h; exact hg
      · split at h
        · cases h
          exact insertPair_keys_nodup hg
        · cases h
  case summary =>
    split at h
    · cases h; exact hg
    · split at h
      · cases h; exact hg
      · split at h
        · cases h; exact hg
        · cases h

theorem lookupKey_cons_eq {α : Type} {k k₀ : String} (a₀ : α)
    (rest : List (String × α)) (hk : k₀ = k) :
    lookupKey k ((k₀, a₀) :: rest) = some a₀ := by
  simp [lookupKey, hk]

theorem lookupKey_cons_ne {α : Type} {k k₀ : String} (a₀ : α)
    (rest : List (String × α)) (hk : ¬ k₀ = k) :
    lookupKey k ((k₀, a₀) :: rest) = lookupKey k rest := by
  simp [lookupKey, hk]

theorem lookupKey_mem {α : Type} {k : String} {a : α} {l : List (String × α)}
    (h : lookupKey k l = some a) : (k, a) ∈ l := by
  induction l with
  | nil => cases h
  | cons p rest ih =>
    rcases p with ⟨k₀, a₀⟩
    by_cases hk : k₀ = k
    · rw [lookupKey_cons_eq a₀ rest hk] at h
      cases h
      rw [hk]
      exact List.mem_cons_self _ _
    · rw [lookupKey_cons_ne a₀ rest hk] at h
      exact List.mem_cons_of_mem _ (ih h)

theorem setKey_cons_eq {α : Type} {k k₀ : String} (a a₀ : α)
    (rest : List (String × α)) (hk : k₀ = k) :
    setKey k a ((k₀, a₀) :: rest) = (k, a) :: rest := by
  simp [setKey, hk]

theorem setKey_cons_ne {α : Type} {k k₀ : String} (a a₀ : α)
    (rest : List (String × α)) (hk : ¬ k₀ = k) :
    setKey k a ((k₀, a₀) :: rest) = (k₀, a₀) :: setKey k a rest := by
  simp [setKey, hk]

theorem setKey_mem {α : Type} {k : String} {a : α} {p : String × α}
    {l : List (String × α)} (h : p ∈ setKey k a l) : p = (k, a) ∨ p ∈ l := by
  induction l with
  | nil =>
    left
    simpa [setKey] using h
  | cons q rest ih =>
    rcases q with ⟨k₀, a₀⟩
    by_cases hk : k₀ = k
    · rw [setKey_cons_eq a a₀ rest hk] at h
      rcases List.mem_cons.mp h with h | h
      · exact Or.inl h
      · exact Or.inr (List.mem_cons_of_mem _ h)
    · rw [setKey_cons_ne a a₀ rest hk] at h
      rcases List.mem_cons.mp h with h | h
      · exact Or.inr (by simp [h])
      · rcases ih h with h' | h'
        · exact Or.inl h'
        · exact Or.inr (List.mem_cons_of_mem _ h')

/-- Every accumulator in a groups map satisfies the bucket-mapping
invariant. -/
def GroupsNodup (groups : List (String × MetricGroup)) : Prop :=
  ∀ kg ∈ groups, BucketKeysNodup kg.2

theorem addCore_groupsNodup {mtype : MetricType} {cumulative : Bool}
    {keys ks : List String} {groups gs : List (String × MetricGroup)}
    {metricName : String} {ls : Labels} {t : Int} {v : ℚ}
    (h : GroupsNodup groups)
    (hok : addCore mtype cumulative keys groups metricName ls t v =
      Except.ok (ks, gs)) : GroupsNodup gs := by
  unfold addCore at hok
  split at hok
  · have hg0 : BucketKeysNodup
        ((lookupKey (getGroupKey ls) groups).getD (freshGroup ls t cumulative)) := by
      cases hlook : lookupKey (getGroupKey ls) groups with
      | none => simp [hlook, freshGroup, BucketKeysNodup]
      | some g => exact h (getGroupKey ls, g) (lookupKey_mem hlook)
    cases hupd : updateGroup mtype metricName ls v
        ((lookupKey (getGroupKey ls) groups).getD (freshGroup ls t cumulative)) with
    | error e => rw [hupd] at hok; cases hok
    | ok g1 =>
      rw [hupd] at hok
      cases hok
      intro kg hkg
      rcases setKey_mem hkg with h' | h'
      · rw [h']
        exact updateGroup_bucketNodup hg0 hupd
      · exact h kg h'
  · cases hok

theorem addOrKeep_groupsNodup (mp : MetricFamilyPdata) (s : Sample)
    (h : GroupsNodup mp.groups) : GroupsNodup (mp.addOrKeep s).groups := by
  unfold MetricFamilyPdata.addOrKeep MetricFamilyPdata.Add
  cases hcore : addCore mp.mtype mp.isCumulativeTypePdata mp.labelKeysOrdered
      mp.groups s.name s.ls s.t s.v with
  | error e => exact h
  | ok st =>
    rcases st with ⟨ks, gs⟩
    exact addCore_groupsNodup h hcore

theorem ingestAllPdata_groupsNodup (samples : List Sample)
    (mp : MetricFamilyPdata) (h : GroupsNodup mp.groups) :
    GroupsNodup (ingestAllPdata samples mp).groups := by
  induction samples generalizing mp with
  | nil => exact h
  | cons s ss ih => exact ih (mp.addOrKeep s) (addOrKeep_groupsNodup mp s h)

theorem cumulativeDiffs_length (l : List ℚ) :
    (cumulativeDiffs l).length = l.length := by
  cases l with
  | nil => rfl
  | cons v vs =>
    simp only [cumulativeDiffs, List.length_cons, List.length_zipWith]
    omega

/-- Strict bound order: finite bounds by value, every finite bound below the
infinite sentinel. -/
def boundLt : Bound → Bound → Prop
  | .finite a, .finite b => a < b
  | .finite _, .inf => True
  | .inf, .finite _ => False
  | .inf, .inf => False

theorem boundLt_of_le_ne {a b : Bound} (hle : Bound.le a b) (hne : a ≠ b) :
    boundLt a b := by
  cases a with
  | finite qa =>
    cases b with
    | finite qb =>
      exact lt_of_le_of_ne hle fun h => hne (by rw [h])
    | inf => trivial
  | inf =>
    cases b with
    | finite qb => exact hle.elim
    | inf => exact absurd rfl hne

theorem sortedBuckets_pairwise (g : MetricGroup) (hn : BucketKeysNodup g) :
    (sortedBuckets g).Pairwise fun x y => boundLt x.1 y.1 := by
  have hsorted : (sortedBuckets g).Sorted bucketLe :=
    List.sorted_insertionSort bucketLe g.buckets
  have hperm : List.Perm (sortedBuckets g) g.buckets :=
    List.perm_insertionSort bucketLe g.buckets
  have hnodup : ((sortedBuckets g).map Prod.fst).Nodup :=
    ((hperm.map Prod.fst).nodup_iff).mpr hn
  have hpw_ne : (sortedBuckets g).Pairwise fun x y => x.1 ≠ y.1 :=
    List.pairwise_map.mp hnodup
  exact (hsorted.and hpw_ne).imp fun hab => boundLt_of_le_ne hab.1 hab.2

theorem dropLast_pairwise (g : MetricGroup) (hn : BucketKeysNodup g) :
    ((sortedBuckets g).dropLast).Pairwise fun x y => boundLt x.1 y.1 :=
  (sortedBuckets_pairwise g hn).sublist (List.dropLast_sublist _)

theorem dropLast_finite (g : MetricGroup) (hn : BucketKeysNodup g) :
    ∀ x ∈ (sortedBuckets g).dropLast, ∃ q, x.1 = Bound.finite q := by
  intro x hx
  have hne : sortedBuckets g ≠ [] := by
    intro hnil
    rw [hnil] at hx
    simp at hx
  have hsplit : (sortedBuckets g).dropLast ++ [(sortedBuckets g).getLast hne] =
      sortedBuckets g := List.dropLast_append_getLast hne
  have hpw := sortedBuckets_pairwise g hn
  rw [← hsplit] at hpw
  have hlt := (List.pairwise_append.mp hpw).2.2 x hx
    ((sortedBuckets g).getLast hne) (by simp)
  cases hx1 : x.1 with
  | finite q => exact ⟨q, rfl⟩
  | inf =>
    rw [hx1] at hlt
    cases hlast : ((sortedBuckets g).getLast hne).1 with
    | finite q => rw [hlast] at hlt; exact hlt.elim
    | inf => rw [hlast] at hlt; exact hlt.elim

theorem explicitBounds_chain (g : MetricGroup) (hn : BucketKeysNodup g) :
    List.Chain' (fun a b : ℚ => a < b)
      (((sortedBuckets g).dropLast).map fun b => b.1.toVal) := by
  rw [List.chain'_map]
  apply List.Pairwise.chain'
  refine (dropLast_pairwise g hn).imp_of_mem ?_
  intro x y hx hy hlt
  obtain ⟨qx, hqx⟩ := dropLast_finite g hn x hx
  obtain ⟨qy, hqy⟩ := dropLast_finite g hn y hy
  rw [hqx, hqy] at hlt ⊢
  exact hlt

theorem assemble_invariant {g : MetricGroup} {orderedKeys : List String}
    {p : HistogramDataPoint} (hn : BucketKeysNodup g)
    (hp : g.toDistributionPointOpt orderedKeys = some p) :
    p.explicitBounds.length = p.bucketCounts.length - 1 ∧
    p.explicitBounds.length + min 1 p.bucketCounts.length = p.bucketCounts.length ∧
    List.Chain' (fun a b : ℚ => a < b) p.explicitBounds ∧
    (bucketDiffs g).all (fun d => decide (0 ≤ d)) = true := by
  unfold MetricGroup.toDistributionPointOpt at hp
  split at hp
  case isTrue hdata =>
    split at hp
    case isTrue hany => cases hp
    case isFalse hany =>
      cases hp
      have hL : (((bucketDiffs g).map toUint64).length : ℕ) =
          (sortedBuckets g).length := by
        simp [bucketDiffs, cumulativeDiffs_length]
      have hB : ((((sortedBuckets g).dropLast).map fun b => b.1.toVal).length : ℕ) =
          (sortedBuckets g).length - 1 := by
        simp
      refine ⟨?_, ?_, explicitBounds_chain g hn, ?_⟩
      · show (((sortedBuckets g).dropLast).map fun b => b.1.toVal).length =
          ((bucketDiffs g).map toUint64).length - 1
        omega
      · show (((sortedBuckets g).dropLast).map fun b => b.1.toVal).length +
          min 1 ((bucketDiffs g).map toUint64).length =
          ((bucketDiffs g).map toUint64).length
        omega
      · rw [List.all_eq_true]
        intro d hd
        simp only [decide_eq_true_eq]
        exact not_lt.mp fun hlt =>
          hany (List.any_eq_true.mpr ⟨d, hd, by simp [hlt]⟩)
  case isFalse hdata => cases hp

/-- Strict-or-equal key order, used to show the canonical key sort is unique
on label sets with pairwise-distinct keys. -/
def labelLt' (a b : Label) : Prop := (labelLe a b ∧ a.name ≠ b.name) ∨ a = b

instance : IsAntisymm Label labelLt' :=
  ⟨fun a b hab hba => by
    rcases hab with ⟨hle₁, hne₁⟩ | heq
    · rcases hba with ⟨hle₂, _⟩ | heq₂
      · exact absurd (String.ext (strLeB_antisymm hle₁ hle₂)) hne₁
      · exact heq₂.symm
    · exact heq⟩

theorem sorted_labelLt' {l : Labels} (hs : l.Sorted labelLe)
    (hn : (l.map Label.name).Nodup) : l.Sorted labelLt' := by
  have hpw_ne : l.Pairwise fun a b => a.name ≠ b.name := List.pairwise_map.mp hn
  exact (hs.and hpw_ne).imp fun hab => Or.inl ⟨hab.1, hab.2⟩

theorem insertionSort_eq_of_perm {l₁ l₂ : Labels} (hp : List.Perm l₁ l₂)
    (hn : (l₁.map Label.name).Nodup) :
    l₁.insertionSort labelLe = l₂.insertionSort labelLe := by
  have hperm : List.Perm (l₁.insertionSort labelLe) (l₂.insertionSort labelLe) :=
    ((List.perm_insertionSort labelLe l₁).trans hp).trans
      (List.perm_insertionSort labelLe l₂).symm
  have hn₁ : ((l₁.insertionSort labelLe).map Label.name).Nodup :=
    (((List.perm_insertionSort labelLe l₁).map Label.name).nodup_iff).mpr hn
  have hn₂ : ((l₂.insertionSort labelLe).map Label.name).Nodup :=
    (((List.perm_insertionSort labelLe l₂).map Label.name).nodup_iff).mpr
      (((hp.map Label.name).nodup_iff).mp hn)
  exact List.eq_of_perm_of_sorted hperm
    (sorted_labelLt' (List.sorted_insertionSort labelLe l₁) hn₁)
    (sorted_labelLt' (List.sorted_insertionSort labelLe l₂) hn₂)

theorem getGroupKey_eq_of_perm {ls₁ ls₂ : Labels}
    (hn : (ls₁.map Label.name).Nodup)
    (hperm : List.Perm (ls₁.filter relevantLabel) (ls₂.filter relevantLabel)) :
    getGroupKey ls₁ = getGroupKey ls₂ := by
  unfold getGroupKey
  rw [insertionSort_eq_of_perm hperm
    (List.Nodup.sublist ((List.filter_sublist ls₁).map Label.name) hn)]

/-- C1: for every metadata cache and family name, the legacy and the pdata
representation agree on `isCumulative`, both equal the fixed table applied to
the declared type (Counter→true, Histogram→true, Gauge→false,
GaugeHistogram→false, Summary→false, Unknown→false), and a family name with
missing metadata classifies as Unknown with `isCumulative = false` without
raising an error. -/
theorem claim1_isCumulative_table (cache : MetadataCache) (familyName : String) :
    (newMetricFamily familyName cache).isCumulativeType =
      (newMetricFamilyPdata familyName cache).isCumulativeTypePdata ∧
    (newMetricFamily familyName cache).isCumulativeType =
      specCumulativeTable (declaredType cache familyName) ∧
    (newMetricFamilyPdata familyName cache).isCumulativeTypePdata =
      specCumulativeTable (declaredType cache familyName) ∧
    (specCumulativeTable MetricType.counter = true ∧
     specCumulativeTable MetricType.histogram = true ∧
     specCumulativeTable MetricType.gauge = false ∧
     specCumulativeTable MetricType.gaugeHistogram = false ∧
     specCumulativeTable MetricType.summary = false ∧
     specCumulativeTable MetricType.unknown = false) ∧
    (cache familyName = none →
      (newMetricFamily familyName cache).mtype = MetricType.unknown ∧
      (newMetricFamily familyName cache).isCumulativeType = false ∧
      (newMetricFamilyPdata familyName cache).isCumulativeTypePdata = false) := by
  have htab : ∀ t : MetricType,
      (MetricFamily.isCumulativeType ⟨familyName, t, [], []⟩) =
        specCumulativeTable t := by
    intro t
    cases t <;> rfl
  have htabp : ∀ t : MetricType,
      (MetricFamilyPdata.isCumulativeTypePdata ⟨familyName, t, [], []⟩) =
        specCumulativeTable t := by
    intro t
    cases t <;> rfl
  refine ⟨isCumulative_agree _ _ rfl, htab _, htabp _, ⟨rfl, rfl, rfl, rfl, rfl, rfl⟩, ?_⟩
  intro hnone
  have hmt : declaredType cache familyName = MetricType.unknown := by
    simp [declaredType, hnone]
  exact ⟨hmt, (htab _).trans (by rw [hmt]; rfl), (htabp _).trans (by rw [hmt]; rfl)⟩

/-- C1 witness: at the unit tests' cache `mc` and the family name
"does not exist" the metadata is missing and classification yields Unknown,
not cumulative, in both representations. -/
theorem claim1_isCumulative_table_witness :
    mc "does not exist" = none ∧
    ((newMetricFamily "does not exist" mc).mtype = MetricType.unknown ∧
     (newMetricFamily "does not exist" mc).isCumulativeType = false ∧
     (newMetricFamilyPdata "does not exist" mc).isCumulativeTypePdata = false) :=
  ⟨by decide, (claim1_isCumulative_table mc "does not exist").2.2.2.2 (by decide)⟩

/-- C2: for every sample sequence ingested identically into the legacy and
the pdata family, the same group key resolves to the same accumulator in
both, the label registries agree, and the two finalizers either both emit
nothing or emit points equal in count, sum, point timestamp, start timestamp,
bucket counts, bounds, exemplars, and rendered label maps sorted by key. -/
theorem claim2_distribution_equivalence (cache : MetadataCache)
    (familyName : String) (samples : List Sample) (key : String)
    (g : MetricGroup)
    (hg : lookupKey key
      (ingestAllPdata samples (newMetricFamilyPdata familyName cache)).groups = some g) :
    lookupKey key (ingestAll samples (newMetricFamily familyName cache)).groups = some g ∧
    (ingestAll samples (newMetricFamily familyName cache)).labelKeysOrdered =
      (ingestAllPdata samples (newMetricFamilyPdata familyName cache)).labelKeysOrdered ∧
    optionDistEquiv (ingestAll samples (newMetricFamily familyName cache)).labelKeysOrdered
      (g.toDistributionTimeSeries
        (ingestAll samples (newMetricFamily familyName cache)).labelKeysOrdered)
      (g.toDistributionPointOpt
        (ingestAllPdata samples (newMetricFamilyPdata familyName cache)).labelKeysOrdered) := by
  obtain ⟨ht, hk, hgr⟩ := ingestAll_agree samples _ _ (newFamily_agree familyName cache)
  refine ⟨by rw [hgr]; exact hg, hk, ?_⟩
  rw [hk]
  exact assemble_equiv g _

/-- C2 witness: the equivalence at the unit test's histogram scrapes. -/
theorem claim2_distribution_equivalence_witness :
    lookupKey (getGroupKeyPdata testLabels)
      (ingestAllPdata testScrapes (newMetricFamilyPdata "histogram" mc)).groups =
        some testGroup ∧
    (lookupKey (getGroupKeyPdata testLabels)
      (ingestAll testScrapes (newMetricFamily "histogram" mc)).groups = some testGroup ∧
     (ingestAll testScrapes (newMetricFamily "histogram" mc)).labelKeysOrdered =
       (ingestAllPdata testScrapes (newMetricFamilyPdata "histogram" mc)).labelKeysOrdered ∧
     optionDistEquiv (ingestAll testScrapes (newMetricFamily "histogram" mc)).labelKeysOrdered
       (testGroup.toDistributionTimeSeries
         (ingestAll testScrapes (newMetricFamily "histogram" mc)).labelKeysOrdered)
       (testGroup.toDistributionPointOpt
         (ingestAllPdata testScrapes (newMetricFamilyPdata "histogram" mc)).labelKeysOrdered)) :=
  ⟨by decide,
   claim2_distribution_equivalence mc "histogram" testScrapes
     (getGroupKeyPdata testLabels) testGroup (by decide)⟩

/-- C3: the unit-test scenario: family "histogram" with labels
`{a:A, le:0.75, b:B}` and scrapes `(histogram_count,10,t=11)`,
`(histogram_sum,1004.78,t=11)`, `(value,33.7,t=13)` produces exactly one
group, and its finalization appends exactly one point with count 10,
sum 1004.78, bucketCounts `[33]` (33.7 truncated toward zero), empty
explicitBounds, timestamp and startTimestamp `11000000` ns, and labels
`{a:A, b:B}` with the `le` and metric-name labels excluded. -/
theorem claim3_histogram_scenario :
    (ingestAllPdata testScrapes (newMetricFamilyPdata "histogram" mc)).groups.length = 1 ∧
    lookupKey (getGroupKeyPdata testLabels)
      (ingestAllPdata testScrapes (newMetricFamilyPdata "histogram" mc)).groups =
        some testGroup ∧
    testGroup.toDistributionPoint
      (ingestAllPdata testScrapes (newMetricFamilyPdata "histogram" mc)).labelKeysOrdered [] =
      (true, [expectedPoint]) := by
  decide

/-- C4: every distribution point emitted from a pipeline-produced group has
`explicitBounds` one shorter than `bucketCounts` (single-bucket points have
no bounds and one count), strictly ascending explicit bounds, and
non-negative reconciled bucket values. -/
theorem claim4_bucket_invariant (cache : MetadataCache) (familyName : String)
    (samples : List Sample) (key : String) (orderedKeys : List String)
    (g : MetricGroup) (p : HistogramDataPoint)
    (hg : lookupKey key
      (ingestAllPdata samples (newMetricFamilyPdata familyName cache)).groups = some g)
    (hp : g.toDistributionPointOpt orderedKeys = some p) :
    p.explicitBounds.length = p.bucketCounts.length - 1 ∧
    p.explicitBounds.length + min 1 p.bucketCounts.length = p.bucketCounts.length ∧
    List.Chain' (fun a b : ℚ => a < b) p.explicitBounds ∧
    (bucketDiffs g).all (fun d => decide (0 ≤ d)) = true := by
  have hnod : GroupsNodup
      (ingestAllPdata samples (newMetricFamilyPdata familyName cache)).groups :=
    ingestAllPdata_groupsNodup samples _
      (by intro kg hkg; simp [newMetricFamilyPdata] at hkg)
  exact assemble_invariant (hnod (key, g) (lookupKey_mem hg)) hp

/-- C4 witness: the invariant at the unit test's single-bucket point. -/
theorem claim4_bucket_invariant_witness :
    lookupKey (getGroupKeyPdata testLabels)
      (ingestAllPdata testScrapes (newMetricFamilyPdata "histogram" mc)).groups =
        some testGroup ∧
    testGroup.toDistributionPointOpt ["a", "b"] = some expectedPoint ∧
    (expectedPoint.explicitBounds.length = expectedPoint.bucketCounts.length - 1 ∧
     expectedPoint.explicitBounds.length + min 1 expectedPoint.bucketCounts.length =
       expectedPoint.bucketCounts.length ∧
     List.Chain' (fun a b : ℚ => a < b) expectedPoint.explicitBounds ∧
     (bucketDiffs testGroup).all (fun d => decide (0 ≤ d)) = true) :=
  ⟨by decide, by decide,
   claim4_bucket_invariant mc "histogram" testScrapes (getGroupKeyPdata testLabels)
     ["a", "b"] testGroup expectedPoint (by decide) (by decide)⟩

/-- C5: every emitted point's timestamp is exactly the group's millisecond
timestamp times 1 000 000, and its start timestamp is exactly the first-seen
(cumulative) or own (non-cumulative) millisecond timestamp times 1 000 000 —
no rounding, no loss. -/
theorem claim5_timestamp_exact {g : MetricGroup} {orderedKeys : List String}
    {p : HistogramDataPoint} (hp : g.toDistributionPointOpt orderedKeys = some p) :
    p.timestampNanos = g.tsMillis * 1000000 ∧
    p.startTimestampNanos =
      (if g.cumulative then g.firstSeenMillis else g.tsMillis) * 1000000 := by
  unfold MetricGroup.toDistributionPointOpt at hp
  split at hp
  · split at hp
    · cases hp
    · cases hp
      exact ⟨rfl, rfl⟩
  · cases hp

/-- C5 witness: exact nanosecond timestamps at the unit test's point. -/
theorem claim5_timestamp_exact_witness :
    testGroup.toDistributionPointOpt ["a", "b"] = some expectedPoint ∧
    (expectedPoint.timestampNanos = testGroup.tsMillis * 1000000 ∧
     expectedPoint.startTimestampNanos =
       (if testGroup.cumulative then testGroup.firstSeenMillis
        else testGroup.tsMillis) * 1000000) :=
  ⟨by decide, @claim5_timestamp_exact testGroup ["a", "b"] expectedPoint (by decide)⟩

/-- C6: `Add` on a label set with a duplicated key fails with
`MalformedLabelsError` in both representations, leaves the family (its label
registry and every group accumulator) unchanged, and ingestion of subsequent
samples continues from that unchanged state. -/
theorem claim6_malformed_labels (mf : MetricFamily) (mp : MetricFamilyPdata)
    (metricName : String) (ls : Labels) (t : Int) (v : ℚ)
    (hdup : ¬ (ls.map Label.name).Nodup) :
    mf.Add metricName ls t v = Except.error AddError.malformedLabels ∧
    mp.Add metricName ls t v = Except.error AddError.malformedLabels ∧
    mf.addOrKeep ⟨metricName, ls, t, v⟩ = mf ∧
    mp.addOrKeep ⟨metricName, ls, t, v⟩ = mp := by
  have hcore : ∀ (mtype : MetricType) (cum : Bool) (keys : List String)
      (groups : List (String × MetricGroup)),
      addCore mtype cum keys groups metricName ls t v =
        Except.error AddError.malformedLabels := by
    intro mtype cum keys groups
    unfold addCore
    rw [if_neg hdup]
  refine ⟨?_, ?_, ?_, ?_⟩ <;>
    simp [MetricFamily.Add, MetricFamilyPdata.Add, MetricFamily.addOrKeep,
      MetricFamilyPdata.addOrKeep, hcore]

/-- C6 witness: the duplicate key `a` is rejected and the test family is
unchanged. -/
theorem claim6_malformed_labels_witness :
    ¬ ((([⟨"a", "A"⟩, ⟨"a", "B"⟩] : Labels).map Label.name).Nodup) ∧
    ((newMetricFamily "histogram" mc).Add "histogram_count"
        [⟨"a", "A"⟩, ⟨"a", "B"⟩] 11 10 = Except.error AddError.malformedLabels ∧
     (newMetricFamilyPdata "histogram" mc).Add "histogram_count"
        [⟨"a", "A"⟩, ⟨"a", "B"⟩] 11 10 = Except.error AddError.malformedLabels ∧
     (newMetricFamily "histogram" mc).addOrKeep
        ⟨"histogram_count", [⟨"a", "A"⟩, ⟨"a", "B"⟩], 11, 10⟩ =
          newMetricFamily "histogram" mc ∧
     (newMetricFamilyPdata "histogram" mc).addOrKeep
        ⟨"histogram_count", [⟨"a", "A"⟩, ⟨"a", "B"⟩], 11, 10⟩ =
          newMetricFamilyPdata "histogram" mc) :=
  ⟨by decide,
   claim6_malformed_labels (newMetricFamily "histogram" mc)
     (newMetricFamilyPdata "histogram" mc) "histogram_count"
     [⟨"a", "A"⟩, ⟨"a", "B"⟩] 11 10 (by decide)⟩

/-- Two bucket-style scrapes of one series whose cumulative values decrease
with the bound: `le=0.5 ↦ 10` followed by `le=0.75 ↦ 5`. -/
def nonMonotonicScrapes : List Sample :=
  [{ name := "value", ls := [⟨"a", "A"⟩, ⟨"le", "0.5"⟩], t := 11, v := 10 },
   { name := "value", ls := [⟨"a", "A"⟩, ⟨"le", "0.75"⟩], t := 11, v := 5 }]

/-- The accumulator the non-monotonic scrapes produce. -/
def nonMonotonicGroup : MetricGroup :=
  { ls := [⟨"a", "A"⟩, ⟨"le", "0.5"⟩]
    tsMillis := 11
    firstSeenMillis := 11
    cumulative := true
    count := none
    sum := none
    value := none
    buckets := [(Bound.finite (1 / 2), 10), (Bound.finite (3 / 4), 5)]
    quantiles := [] }

/-- C7 counterexample: a group to which two samples contributed (it holds two
bucket entries, `hasData` is true) for which `toDistributionPoint` returns
`false` and appends no point, because the reconciled bucket counts would be
negative — refuting the claim that every group with at least one contributing
sample yields `true` and exactly one appended point. -/
theorem claim7_counterexample :
    lookupKey (getGroupKeyPdata [⟨"a", "A"⟩, ⟨"le", "0.5"⟩])
      (ingestAllPdata nonMonotonicScrapes (newMetricFamilyPdata "histogram" mc)).groups =
      some nonMonotonicGroup ∧
    nonMonotonicGroup.hasData = true ∧
    nonMonotonicGroup.buckets.length = 2 ∧
    nonMonotonicGroup.toDistributionPoint ["a"] [] = (false, []) := by
  decide

/-- C7 (amended): a group with zero contributing samples yields `false` and
appends no point; a group with at least one contributing sample whose
reconciled bucket counts are all non-negative yields `true` and appends
exactly one point. -/
theorem claim7_empty_group (g : MetricGroup) (orderedKeys : List String)
    (dest : List HistogramDataPoint) :
    (g.hasData = false → g.toDistributionPoint orderedKeys dest = (false, dest)) ∧
    (g.hasData = true →
      (bucketDiffs g).any (fun d => decide (d < 0)) = false →
      (g.toDistributionPoint orderedKeys dest).1 = true ∧
      (g.toDistributionPoint orderedKeys dest).2 =
        dest ++ ((g.toDistributionPoint orderedKeys dest).2.drop dest.length) ∧
      ((g.toDistributionPoint orderedKeys dest).2.drop dest.length).length = 1) := by
  constructor
  · intro hdata
    unfold MetricGroup.toDistributionPoint MetricGroup.toDistributionPointOpt
    rw [if_neg (by simp [hdata])]
  · intro hdata hmono
    unfold MetricGroup.toDistributionPoint MetricGroup.toDistributionPointOpt
    rw [if_pos hdata, if_neg (by simp [hmono])]
    refine ⟨rfl, ?_, ?_⟩
    · rw [List.drop_left]
    · rw [List.drop_left]
      rfl

/-- C7 witness for the amended claim: the unit-test group has data, its
reconciled counts are non-negative, and finalization appends exactly one
point. -/
theorem claim7_empty_group_witness :
    (testGroup.hasData = true ∧
     (bucketDiffs testGroup).any (fun d => decide (d < 0)) = false) ∧
    ((testGroup.toDistributionPoint ["a", "b"] []).1 = true ∧
     (testGroup.toDistributionPoint ["a", "b"] []).2 =
       [] ++ ((testGroup.toDistributionPoint ["a", "b"] []).2.drop ([] : List HistogramDataPoint).length) ∧
     ((testGroup.toDistributionPoint ["a", "b"] []).2.drop ([] : List HistogramDataPoint).length).length = 1) :=
  ⟨⟨by decide, by decide⟩,
   (claim7_empty_group testGroup ["a", "b"] []).2 (by decide) (by decide)⟩

/-- C8: finalization is a pure read of the accumulated state: invoking
`toDistributionPoint` a second time, on the slice produced by the first call
and with the accumulator unchanged (it is never mutated), returns the same
flag and appends exactly the same points again. -/
theorem claim8_finalize_idempotent (g : MetricGroup) (orderedKeys : List String)
    (dest : List HistogramDataPoint) :
    (g.toDistributionPoint orderedKeys ((g.toDistributionPoint orderedKeys dest).2)).1 =
      (g.toDistributionPoint orderedKeys dest).1 ∧
    (g.toDistributionPoint orderedKeys ((g.toDistributionPoint orderedKeys dest).2)).2 =
      (g.toDistributionPoint orderedKeys dest).2 ++
        ((g.toDistributionPoint orderedKeys dest).2.drop dest.length) := by
  unfold MetricGroup.toDistributionPoint
  cases hopt : g.toDistributionPointOpt orderedKeys with
  | none => simp
  | some p => simp [List.drop_left]

/-- C9: the group key ignores the order of the label pairs and the presence
and values of the metric-name and discriminator (`le`, `quantile`) labels:
any two label sets with duplicate-free keys whose relevant pairs are
permutations of each other resolve to the same group key, in both
representations. -/
theorem claim9_groupKey_invariance (ls₁ ls₂ : Labels)
    (hn : (ls₁.map Label.name).Nodup)
    (hperm : List.Perm (ls₁.filter relevantLabel) (ls₂.filter relevantLabel)) :
    getGroupKey ls₁ = getGroupKey ls₂ ∧
    getGroupKeyPdata ls₁ = getGroupKeyPdata ls₂ :=
  ⟨getGroupKey_eq_of_perm hn hperm, getGroupKey_eq_of_perm hn hperm⟩

/-- C9 witness: the test labels `{a:A, le:0.75, b:B}` (as carried by a bucket
sample) and the reordered, `le`-free labels `{b:B, a:A}` (as carried by the
`_count` / `_sum` samples) resolve to the same group key. -/
theorem claim9_groupKey_invariance_witness :
    ((testLabels.map Label.name).Nodup ∧
     List.Perm (testLabels.filter relevantLabel)
       (([⟨"b", "B"⟩, ⟨"a", "A"⟩] : Labels).filter relevantLabel)) ∧
    (getGroupKey testLabels = getGroupKey [⟨"b", "B"⟩, ⟨"a", "A"⟩] ∧
     getGroupKeyPdata testLabels = getGroupKeyPdata [⟨"b", "B"⟩, ⟨"a", "A"⟩]) :=
  ⟨⟨by decide, by decide⟩,
   claim9_groupKey_invariance testLabels [⟨"b", "B"⟩, ⟨"a", "A"⟩]
     (by decide) (by decide)⟩

/-- C10: for every label set the legacy and the pdata group key resolvers
return the same key, and after identical ingestion that key indexes the same
accumulator in both representations' groups maps. -/
theorem claim10_groupKey_agree (ls : Labels) (samples : List Sample)
    (familyName : String) (cache : MetadataCache) :
    getGroupKey ls = getGroupKeyPdata ls ∧
    lookupKey (getGroupKey ls)
      (ingestAll samples (newMetricFamily familyName cache)).groups =
    lookupKey (getGroupKeyPdata ls)
      (ingestAllPdata samples (newMetricFamilyPdata familyName cache)).groups := by
  obtain ⟨_, _, hgr⟩ := ingestAll_agree samples _ _ (newFamily_agree familyName cache)
  exact ⟨rfl, by rw [hgr]; rfl⟩

end PromCore
